import Mathlib

/-!
Verification of the Local-Drive-Hub orchestration core against its
natural-language specification.

The development shallowly embeds the TypeScript sources:
  * `lib/encryption` (Credential Vault): PBKDF2 key derivation and
    AES-256-GCM encryption of long-lived secrets.  The external Node
    `crypto` primitives (PBKDF2, GCM, `randomBytes`) are modelled
    symbolically / as pure functions over an explicit seed; the wiring
    (salt/iv handling, fixed AAD, tag check, the single catch-all
    decryption error) follows the source line by line.
  * the upload route (`POST`), the download route
    (`handleSingleDownload` / `handleBulkDownload`), the accounts route
    (`GET` / `PUT`) and the file-sync helper (`syncAccountFiles`),
    modelled as pure functions over an explicit account store, upload
    table, clock value and remote oracles.
  * `lib/database` upload-progress updates (`updateUploadProgress`).

JavaScript truthiness tests that the source performs on optional fields
(`!accessToken`, `account.token_expiry && ...`, `!passphrase`) are
embedded faithfully via `strTruthy` / `numTruthy`.
-/

namespace LDH

/-! ## Credential Vault (lib/encryption)

Constants from the source: AES-256-GCM, 32-byte key, 16-byte IV,
16-byte tag, 32-byte salt, 100000 PBKDF2 iterations. -/

abbrev Bytes := List Nat

def KEY_LENGTH : Nat := 32

def IV_LENGTH : Nat := 16

def TAG_LENGTH : Nat := 16

def SALT_LENGTH : Nat := 32

/-- Modelled: a PBKDF2-derived key.  The external PBKDF2 primitive is
idealized as the tuple of its inputs (passphrase, salt, iteration count,
output length); two derived keys are equal exactly when those inputs are. -/
structure DerivedKey where
  pass : String
  salt : Bytes
  iter : Nat
  len : Nat
  deriving DecidableEq, Repr

/-- Modelled: an AES-256-GCM ciphertext, idealized as an opaque box binding
the key, IV, additional authenticated data and plaintext. -/
structure GcmCiphertext where
  key : DerivedKey
  iv : Bytes
  aad : String
  plain : String
  deriving DecidableEq, Repr

/-- Modelled: a 128-bit GCM authentication tag, idealized as an unforgeable
binding of key, IV, AAD and ciphertext. -/
structure GcmTag where
  key : DerivedKey
  iv : Bytes
  aad : String
  ct : GcmCiphertext
  deriving DecidableEq, Repr

/-- Modelled: the GCM encryption primitive (`createCipherGCM` in the source,
standing for the AES-256-GCM construction). -/
def gcmEncrypt (key : DerivedKey) (iv : Bytes) (aad : String) (plain : String) :
    GcmCiphertext × GcmTag :=
  let c : GcmCiphertext := ⟨key, iv, aad, plain⟩
  (c, ⟨key, iv, aad, c⟩)

/-- Modelled: the GCM decryption primitive (`createDecipherGCM` in the
source): recompute the expected tag and release the plaintext only when the
supplied tag matches; any mismatch (wrong key, tampered IV/AAD/ciphertext)
fails. -/
def gcmDecrypt (key : DerivedKey) (iv : Bytes) (aad : String)
    (c : GcmCiphertext) (tag : GcmTag) : Option String :=
  if tag = ⟨key, iv, aad, c⟩ then some c.plain else none

/-- Modelled: `crypto.randomBytes`, as a pure pseudorandom byte-string
generator over an explicit seed. -/
def genBytes (n : Nat) (seed : Nat) : Bytes :=
  (List.range n).map (fun i => (seed + i * 2654435761) % 256)

/-- Modelled: one `crypto.randomBytes(n)` draw: produce `n` bytes and step
the seed. -/
def randomBytes (n : Nat) (seed : Nat) : Bytes × Nat :=
  (genBytes n seed, seed + 1)

/-- The `EncryptedData` record of lib/encryption (hex encoding of the
fields is modelled as the identity). -/
structure EncryptedData where
  encryptedData : GcmCiphertext
  iv : Bytes
  tag : GcmTag
  salt : Bytes
  deriving DecidableEq, Repr

/-- The single error that lib/encryption's decryption path can surface. -/
inductive DecryptionError where
  | failed : String → DecryptionError
  deriving DecidableEq, Repr

/-- The one error value produced by `decryptWithPassphrase`, for a wrong
passphrase and for a corrupt blob alike. -/
def decryptionFailure : DecryptionError :=
  .failed "Failed to decrypt data. Invalid passphrase or corrupted data."

/-- `deriveKey` from the source: PBKDF2 with 100000 iterations and
`KEY_LENGTH` (32-byte, 256-bit) output. -/
def deriveKey (passphrase : String) (salt : Bytes) : DerivedKey :=
  ⟨passphrase, salt, 100000, KEY_LENGTH⟩

/-- `encryptWithPassphrase` from the source: fresh random salt, key derived
from passphrase and salt, fresh random IV, GCM encryption with the fixed
AAD string. -/
def encryptWithPassphrase (data : String) (passphrase : String) (seed : Nat) :
    EncryptedData × Nat :=
  let saltDraw := randomBytes SALT_LENGTH seed
  let key := deriveKey passphrase saltDraw.1
  let ivDraw := randomBytes IV_LENGTH saltDraw.2
  let enc := gcmEncrypt key ivDraw.1 "localdrivehub" data
  ({ encryptedData := enc.1, iv := ivDraw.1, tag := enc.2, salt := saltDraw.1 }, ivDraw.2)

/-- `decryptWithPassphrase` from the source: re-derive the key from the
blob's salt, GCM-decrypt with the fixed AAD and the blob's tag; every
failure is caught and reported as the one `decryptionFailure` error. -/
def decryptWithPassphrase (enc : EncryptedData) (passphrase : String) :
    Except DecryptionError String :=
  let key := deriveKey passphrase enc.salt
  match gcmDecrypt key enc.iv "localdrivehub" enc.encryptedData enc.tag with
  | some plain => .ok plain
  | none => .error decryptionFailure

/-- `encryptRefreshToken` from the source (JSON serialization modelled as
the identity). -/
def encryptRefreshToken (refreshToken : String) (passphrase : String) (seed : Nat) :
    EncryptedData × Nat :=
  encryptWithPassphrase refreshToken passphrase seed

/-- `decryptRefreshToken` from the source: decrypt and re-label any failure
with the refresh-token error message. -/
def decryptRefreshToken (encryptedToken : EncryptedData) (passphrase : String) :
    Except DecryptionError String :=
  match decryptWithPassphrase encryptedToken passphrase with
  | .ok s => .ok s
  | .error _ =>
      .error (.failed "Failed to decrypt refresh token. Invalid passphrase or corrupted data.")

/-- C1: decrypting the encryption of a secret under the same passphrase
returns the original secret, for every secret, passphrase and randomness
seed. -/
theorem C1_decrypt_encrypt_roundtrip (secret passphrase : String) (seed : Nat) :
    decryptWithPassphrase (encryptWithPassphrase secret passphrase seed).1 passphrase =
      .ok secret := by
  simp [decryptWithPassphrase, encryptWithPassphrase, gcmEncrypt, gcmDecrypt, deriveKey,
    randomBytes]

/-- C2: decrypting under a different passphrase fails with the single
`decryptionFailure` error, and decrypting a blob whose ciphertext has been
tampered with fails with the very same error value, so the two causes are
indistinguishable to the caller. -/
theorem C2_wrong_passphrase_and_corruption_fail (secret p1 p2 : String) (seed : Nat)
    (hp : p1 ≠ p2) :
    decryptWithPassphrase (encryptWithPassphrase secret p1 seed).1 p2 =
        .error decryptionFailure ∧
      ∀ c : GcmCiphertext, c ≠ (encryptWithPassphrase secret p1 seed).1.encryptedData →
        decryptWithPassphrase
            { (encryptWithPassphrase secret p1 seed).1 with encryptedData := c } p1 =
          .error decryptionFailure := by
  constructor
  · simp [decryptWithPassphrase, encryptWithPassphrase, gcmEncrypt, gcmDecrypt, deriveKey,
      randomBytes, hp, Ne.symm hp]
  · intro c hc
    simp [decryptWithPassphrase, encryptWithPassphrase, gcmEncrypt, gcmDecrypt, deriveKey,
      randomBytes] at hc ⊢
    simp [Ne.symm hc]

/-- Witness for C2 at concrete inputs. -/
theorem C2_wrong_passphrase_witness :
    (("pw1" : String) ≠ "pw2" ∧
        decryptWithPassphrase (encryptWithPassphrase "secret" "pw1" 0).1 "pw2" =
          .error decryptionFailure) ∧
      ((⟨⟨"x", [], 0, 0⟩, [], "", ""⟩ : GcmCiphertext) ≠
          (encryptWithPassphrase "secret" "pw1" 0).1.encryptedData ∧
        decryptWithPassphrase
            { (encryptWithPassphrase "secret" "pw1" 0).1 with
                encryptedData := ⟨⟨"x", [], 0, 0⟩, [], "", ""⟩ } "pw1" =
          .error decryptionFailure) := by
  have h := C2_wrong_passphrase_and_corruption_fail "secret" "pw1" "pw2" 0 (by decide)
  refine ⟨⟨by decide, h.1⟩, ⟨by decide, h.2 _ (by decide)⟩⟩

/-- C3: the key is derived with exactly 100000 (hence at least 100000)
PBKDF2 iterations and a 256-bit output; every encryption call takes its
salt and IV directly from the randomness source (fresh draws of the
declared lengths), and neither depends on the data or the passphrase. -/
theorem C3_key_derivation_and_fresh_randomness :
    (∀ p s, (deriveKey p s).iter = 100000 ∧ 100000 ≤ (deriveKey p s).iter ∧
      (deriveKey p s).len * 8 = 256) ∧
    (∀ d p seed,
      (encryptWithPassphrase d p seed).1.salt = genBytes SALT_LENGTH seed ∧
      (encryptWithPassphrase d p seed).1.iv = genBytes IV_LENGTH (seed + 1) ∧
      (encryptWithPassphrase d p seed).1.salt.length = 32 ∧
      (encryptWithPassphrase d p seed).1.iv.length = 16) ∧
    (∀ d1 d2 p1 p2 seed,
      (encryptWithPassphrase d1 p1 seed).1.salt = (encryptWithPassphrase d2 p2 seed).1.salt ∧
      (encryptWithPassphrase d1 p1 seed).1.iv = (encryptWithPassphrase d2 p2 seed).1.iv ∧
      (encryptWithPassphrase d1 p1 seed).2 = seed + 2) := by
  refine ⟨fun p s => ⟨rfl, le_refl _, rfl⟩, fun d p seed => ?_, fun d1 d2 p1 p2 seed => ?_⟩
  · refine ⟨rfl, rfl, ?_, ?_⟩ <;>
      simp [encryptWithPassphrase, randomBytes, genBytes, SALT_LENGTH, IV_LENGTH]
  · exact ⟨rfl, rfl, rfl⟩

/-! ## Account Registry data model (lib/database `Account`) -/

/-- The `Account` row of lib/database.  The encrypted refresh token is the
`EncryptedData` blob (JSON encoding modelled as the identity); the optional
columns are `Option`-valued as in the TypeScript interface. -/
structure Account where
  id : String
  email : String
  name : String
  refresh_token : EncryptedData
  access_token : Option String
  token_expiry : Option Nat
  quota_bytes_total : Option Nat
  quota_bytes_used : Option Nat
  created_at : Nat
  updated_at : Nat
  deriving DecidableEq, Repr

/-- JavaScript truthiness of an optional string: `undefined`/`null` and the
empty string are falsy. -/
def strTruthy : Option String → Bool
  | none => false
  | some s => !s.isEmpty

/-- JavaScript truthiness of an optional number: `undefined`/`null` and `0`
are falsy. -/
def numTruthy : Option Nat → Bool
  | none => false
  | some n => n != 0

/-- The refresh guard the routes all use:
`!accessToken || (account.token_expiry && account.token_expiry < Date.now())`. -/
def needsRefresh (a : Account) (now : Nat) : Bool :=
  !(strTruthy a.access_token) || (numTruthy a.token_expiry && decide (a.token_expiry.getD 0 < now))

/-- `database.getAccount`: look an account up by id. -/
def findAccount (store : List Account) (aid : String) : Option Account :=
  store.find? (fun a => a.id == aid)

/-- `database.saveAccount` (`INSERT OR REPLACE` keyed by id). -/
def saveAccount (store : List Account) (a : Account) : List Account :=
  if store.any (fun b => b.id == a.id) then
    store.map (fun b => if b.id == a.id then a else b)
  else store ++ [a]

/-! ## Access-credential acquisition (upload route `POST`, lines 132-157)

The Remote Auth exchange (`authManager.refreshAccessToken`) is an external
capability, passed in as an oracle `refreshAccessToken : String → String`.
The result records whether an exchange was performed. -/

/-- The failures of the credential phase: the 401 "Passphrase required to
refresh token" response, and the decryption throw that the route's
catch-all turns into a 500. -/
inductive AuthFailure where
  | needsPassphrase
  | decryptFailed
  deriving DecidableEq, Repr

/-- Result of the credential phase: the token and the (possibly updated)
account on success, plus a flag recording whether a Remote Auth exchange
was performed. -/
structure CredResult where
  outcome : Except AuthFailure (String × Account)
  exchanged : Bool
  deriving Repr

/-- The credential phase of the upload route (lines 132-157): use the
cached token unless the refresh guard fires, in which case a truthy
passphrase is required, the stored refresh token is decrypted, exchanged,
and the account is updated with the new token and a `now + 3600000`
expiry. -/
def getAccessCredential (a : Account) (passphrase : Option String) (now : Nat)
    (refreshAccessToken : String → String) : CredResult :=
  if needsRefresh a now then
    if strTruthy passphrase then
      match decryptRefreshToken a.refresh_token (passphrase.getD "") with
      | .error _ => { outcome := .error .decryptFailed, exchanged := false }
      | .ok rt =>
          let tok := refreshAccessToken rt
          { outcome := .ok (tok,
              { a with access_token := some tok, token_expiry := some (now + 3600000),
                       updated_at := now }),
            exchanged := true }
    else { outcome := .error .needsPassphrase, exchanged := false }
  else { outcome := .ok (a.access_token.getD "", a), exchanged := false }

/-- An account whose cached token is expired (expiry 0, i.e. the epoch),
used to exhibit the truthiness gap in the refresh guard. -/
def c6Account : Account :=
  { id := "acct1", email := "a1@example.com", name := "A1",
    refresh_token := (encryptRefreshToken "rtok" "pw" 0).1,
    access_token := some "staletok", token_expiry := some 0,
    quota_bytes_total := some 100, quota_bytes_used := some 10,
    created_at := 1, updated_at := 1 }

/-- C6 counterexample: `c6Account` holds a cached token whose stored expiry
(0) is strictly in the past at `now = 1000`, yet even with a passphrase
supplied the route performs no exchange and returns the stale cached token
with the account unchanged — because the guard
`account.token_expiry && account.token_expiry < Date.now()` treats the
expiry value 0 as falsy. -/
theorem C6_expired_epoch_token_not_refreshed :
    c6Account.token_expiry = some 0 ∧ (0 : Nat) < 1000 ∧
      getAccessCredential c6Account (some "pw") 1000 (fun rt => rt ++ "-new") =
        { outcome := .ok ("staletok", c6Account), exchanged := false } := by
  refine ⟨rfl, by decide, ?_⟩
  rfl

/-- C6 (amended): the cached token is returned untouched whenever the
refresh guard is falsy (in particular when the stored expiry is 0); when
the guard fires and no truthy passphrase is supplied the phase fails with
`needsPassphrase` and performs no exchange; when the guard fires, a
passphrase is supplied and the stored secret decrypts, the phase exchanges
it, caches the new token with expiry `now + 3600000` (a future instant)
and returns it. -/
theorem C6_get_access_credential_cases (a : Account) (pass : Option String) (now : Nat)
    (ex : String → String) :
    (needsRefresh a now = false →
      getAccessCredential a pass now ex =
        { outcome := .ok (a.access_token.getD "", a), exchanged := false }) ∧
    (needsRefresh a now = true → strTruthy pass = false →
      getAccessCredential a pass now ex =
        { outcome := .error .needsPassphrase, exchanged := false }) ∧
    (∀ rt, needsRefresh a now = true → strTruthy pass = true →
      decryptRefreshToken a.refresh_token (pass.getD "") = .ok rt →
      getAccessCredential a pass now ex =
          { outcome := .ok (ex rt,
              { a with access_token := some (ex rt), token_expiry := some (now + 3600000),
                       updated_at := now }),
            exchanged := true } ∧
        now < now + 3600000) := by
  refine ⟨fun h => ?_, fun h hp => ?_, fun rt h hp hd => ?_⟩
  · simp [getAccessCredential, h]
  · simp [getAccessCredential, h, hp]
  · refine ⟨?_, by omega⟩
    simp [getAccessCredential, h, hp, hd]

/-- An account with an empty credential cache, used as the C6 witness
input. -/
def c6FreshAccount : Account :=
  { id := "acct2", email := "a2@example.com", name := "A2",
    refresh_token := (encryptRefreshToken "rtok" "pw" 0).1,
    access_token := none, token_expiry := none,
    quota_bytes_total := some 100, quota_bytes_used := some 10,
    created_at := 2, updated_at := 2 }

/-- Witness for the amended C6 at concrete inputs: an account with an empty
cache and a supplied passphrase is refreshed through the exchange. -/
theorem C6_get_access_credential_witness :
    getAccessCredential c6FreshAccount (some "pw") 50 (fun rt => rt ++ "-new") =
        { outcome := .ok ("rtok-new",
            { c6FreshAccount with
                access_token := some "rtok-new"
                token_expiry := some (50 + 3600000)
                updated_at := 50 }),
          exchanged := true } ∧
      (50 : Nat) < 50 + 3600000 := by
  have h := ((C6_get_access_credential_cases c6FreshAccount (some "pw") 50
      (fun rt => rt ++ "-new")).2.2 "rtok" rfl rfl (by rfl))
  exact h

/-! ## Placement Planner (spec §4.4) -/

/-- Modelled from the spec: a file descriptor as the Placement Planner sees
it (`name`, `sizeBytes`, `contentType`); the planner itself is absent from
src/ (the observed upload path takes a caller-chosen target account). -/
structure PFile where
  name : String
  sizeBytes : Nat
  contentType : String
  deriving DecidableEq, Repr

/-- Modelled from the spec: an account as the Placement Planner sees it —
its id and its free capacity (`bytesTotal - bytesUsed`); the list order is
account creation order. -/
structure PAccount where
  id : String
  freeBytes : Nat
  deriving DecidableEq, Repr

/-- Modelled from the spec: keep the account with more remaining free
capacity, the earlier one on ties. -/
def pick (a : PAccount) : Option PAccount → Option PAccount
  | none => some a
  | some b => if a.freeBytes < b.freeBytes then some b else some a

/-- Modelled from the spec: choose the account with the largest remaining
free capacity that can still fit the file, ties broken by account creation
order (earlier wins). -/
def chooseBest : List PAccount → Nat → Option PAccount
  | [], _ => none
  | a :: rest, size =>
    if size ≤ a.freeBytes then pick a (chooseBest rest size) else chooseBest rest size

/-- Modelled from the spec: stable insertion of a file into a
largest-first-sorted list (a file goes before the first strictly smaller
one, keeping request order among equal sizes). -/
def insertDesc (f : PFile) : List PFile → List PFile
  | [] => [f]
  | g :: rest => if g.sizeBytes < f.sizeBytes then f :: g :: rest else g :: insertDesc f rest

/-- Modelled from the spec: sort files by descending size (largest-first,
stable). -/
def sortDesc (fs : List PFile) : List PFile :=
  fs.foldr insertDesc []

/-- Modelled from the spec: debit a placed file's size from the chosen
account's remaining free capacity. -/
def debit (accs : List PAccount) (aid : String) (amount : Nat) : List PAccount :=
  accs.map (fun a => if a.id == aid then { a with freeBytes := a.freeBytes - amount } else a)

/-- Modelled from the spec: the planner's main loop over the (already
sorted) files — place each file on the best-fitting account and debit it,
or report the file unplaced when no account can fit it. -/
def planGo : List PFile → List PAccount → List (PFile × String) × List PFile
  | [], _ => ([], [])
  | f :: rest, accs =>
    match chooseBest accs f.sizeBytes with
    | none =>
        let r := planGo rest accs
        (r.1, f :: r.2)
    | some a =>
        let r := planGo rest (debit accs a.id f.sizeBytes)
        ((f, a.id) :: r.1, r.2)

/-- Modelled from the spec: the Placement Planner — sort the batch
largest-first, then place each file best-fit, reporting the unplaceable
ones. -/
def planPlacement (fs : List PFile) (accs : List PAccount) :
    List (PFile × String) × List PFile :=
  planGo (sortDesc fs) accs

/-- When `chooseBest` returns no account, no account fits the size. -/
theorem chooseBest_none {accs : List PAccount} {size : Nat}
    (h : chooseBest accs size = none) : ∀ b ∈ accs, ¬ size ≤ b.freeBytes := by
  induction accs with
  | nil => intro b hb; cases hb
  | cons a rest ih =>
    intro b hb
    by_cases hfit : size ≤ a.freeBytes
    · simp only [chooseBest] at h
      rw [if_pos hfit] at h
      rcases hcb : chooseBest rest size with _ | c <;> rw [hcb] at h <;>
        simp only [pick] at h
      · exact Option.noConfusion h
      · split at h <;> exact Option.noConfusion h
    · simp only [chooseBest] at h
      rw [if_neg hfit] at h
      rcases List.mem_cons.mp hb with rfl | hb2
      · exact hfit
      · exact ih h b hb2

/-- The account `chooseBest` returns is a member that fits the size and has
the largest free capacity among the fitting accounts. -/
theorem chooseBest_spec {accs : List PAccount} {size : Nat} :
    ∀ {a : PAccount}, chooseBest accs size = some a →
    a ∈ accs ∧ size ≤ a.freeBytes ∧
      ∀ b ∈ accs, size ≤ b.freeBytes → b.freeBytes ≤ a.freeBytes := by
  induction accs with
  | nil => intro a h; cases h
  | cons c rest ih =>
    intro a h
    by_cases hfit : size ≤ c.freeBytes
    · simp only [chooseBest] at h
      rw [if_pos hfit] at h
      rcases hcb : chooseBest rest size with _ | b <;> rw [hcb] at h <;>
        simp only [pick] at h
      · obtain rfl : c = a := Option.some.inj h
        refine ⟨List.mem_cons_self _ _, hfit, ?_⟩
        intro b hb hbfit
        rcases List.mem_cons.mp hb with rfl | hb2
        · exact le_refl _
        · exact absurd hbfit (chooseBest_none hcb b hb2)
      · rcases ih hcb with ⟨hmem, hbfit, hmax⟩
        by_cases hlt : c.freeBytes < b.freeBytes
        · rw [if_pos hlt] at h
          obtain rfl : b = a := Option.some.inj h
          refine ⟨List.mem_cons_of_mem _ hmem, hbfit, ?_⟩
          intro d hd hdfit
          rcases List.mem_cons.mp hd with rfl | hd2
          · exact le_of_lt hlt
          · exact hmax d hd2 hdfit
        · rw [if_neg hlt] at h
          obtain rfl : c = a := Option.some.inj h
          refine ⟨List.mem_cons_self _ _, hfit, ?_⟩
          intro d hd hdfit
          rcases List.mem_cons.mp hd with rfl | hd2
          · exact le_refl _
          · exact le_trans (hmax d hd2 hdfit) (le_of_not_lt hlt)
    · simp only [chooseBest] at h
      rw [if_neg hfit] at h
      rcases ih h with ⟨hmem, hbfit, hmax⟩
      refine ⟨List.mem_cons_of_mem _ hmem, hbfit, ?_⟩
      intro d hd hdfit
      rcases List.mem_cons.mp hd with rfl | hd2
      · exact absurd hdfit hfit
      · exact hmax d hd2 hdfit

/-- Members of `insertDesc f l` are `f` or members of `l`. -/
theorem mem_insertDesc {f x : PFile} {l : List PFile} (h : x ∈ insertDesc f l) :
    x = f ∨ x ∈ l := by
  induction l with
  | nil => simpa [insertDesc] using h
  | cons g rest ih =>
    rw [insertDesc] at h
    split at h
    · rcases List.mem_cons.mp h with rfl | h2
      · exact Or.inl rfl
      · exact Or.inr h2
    · rcases List.mem_cons.mp h with rfl | h2
      · exact Or.inr (List.mem_cons_self _ _)
      · rcases ih h2 with h3 | h3
        · exact Or.inl h3
        · exact Or.inr (List.mem_cons_of_mem _ h3)

/-- Inserting into a largest-first-sorted list keeps it sorted. -/
theorem sorted_insertDesc {f : PFile} {l : List PFile}
    (h : List.Sorted (fun a b => b.sizeBytes ≤ a.sizeBytes) l) :
    List.Sorted (fun a b => b.sizeBytes ≤ a.sizeBytes) (insertDesc f l) := by
  induction l with
  | nil => simp [insertDesc]
  | cons g rest ih =>
    rw [insertDesc]
    rcases List.sorted_cons.mp h with ⟨hg, hrest⟩
    split
    · rename_i hlt
      refine List.sorted_cons.mpr ⟨?_, h⟩
      intro b hb
      rcases List.mem_cons.mp hb with rfl | hb2
      · exact le_of_lt hlt
      · exact le_trans (hg b hb2) (le_of_lt hlt)
    · rename_i hge
      refine List.sorted_cons.mpr ⟨?_, ih hrest⟩
      intro b hb
      rcases mem_insertDesc hb with rfl | hb2
      · exact le_of_not_lt hge
      · exact hg b hb2

/-- The planner's sorting pass produces a largest-first-sorted list. -/
theorem sorted_sortDesc (fs : List PFile) :
    List.Sorted (fun a b => b.sizeBytes ≤ a.sizeBytes) (sortDesc fs) := by
  induction fs with
  | nil => simp [sortDesc]
  | cons f rest ih => exact sorted_insertDesc ih

/-- Accounts of a debited list come from accounts of the original list with
the same id and at least as much free capacity. -/
theorem debit_mem {accs : List PAccount} {aid : String} {amount : Nat} {b : PAccount}
    (h : b ∈ debit accs aid amount) :
    ∃ a ∈ accs, a.id = b.id ∧ b.freeBytes ≤ a.freeBytes := by
  rcases List.mem_map.mp h with ⟨a, ha, hmap⟩
  by_cases hid : a.id == aid
  · rw [if_pos hid] at hmap
    exact ⟨a, ha, by rw [← hmap], by rw [← hmap]; exact Nat.sub_le _ _⟩
  · rw [if_neg hid] at hmap
    exact ⟨a, ha, by rw [hmap], by rw [hmap]⟩

/-- Every assignment the planner's loop makes targets an account of the
input snapshot that can fit the file. -/
theorem planGo_safe :
    ∀ (fs : List PFile) (accs : List PAccount) (f : PFile) (aid : String),
      (f, aid) ∈ (planGo fs accs).1 →
      ∃ a ∈ accs, a.id = aid ∧ f.sizeBytes ≤ a.freeBytes := by
  intro fs
  induction fs with
  | nil => intro accs f aid h; simp [planGo] at h
  | cons g rest ih =>
    intro accs f aid h
    rw [planGo] at h
    rcases hcb : chooseBest accs g.sizeBytes with _ | c <;> rw [hcb] at h
    · exact ih accs f aid h
    · rcases List.mem_cons.mp h with heq | h2
      · rcases chooseBest_spec hcb with ⟨hmem, hfit, _⟩
        cases heq
        exact ⟨c, hmem, rfl, hfit⟩
      · rcases ih _ f aid h2 with ⟨a2, ha2, hid, hle⟩
        rcases debit_mem ha2 with ⟨a0, ha0, hid0, hle0⟩
        exact ⟨a0, ha0, by rw [hid0, hid], le_trans hle hle0⟩

/-- Every assignment of a placement plan targets an account of the snapshot
whose free capacity is at least the file's size. -/
theorem planPlacement_safe (fs : List PFile) (accs : List PAccount) (f : PFile)
    (aid : String) (h : (f, aid) ∈ (planPlacement fs accs).1) :
    ∃ a ∈ accs, a.id = aid ∧ f.sizeBytes ≤ a.freeBytes :=
  planGo_safe (sortDesc fs) accs f aid h

/-! ## Upload route (`POST` of the upload API) -/

/-- A file of the incoming form data (`file.name`, `file.size`,
`file.type`). -/
structure FileDesc where
  name : String
  size : Nat
  type : String
  deriving DecidableEq, Repr

/-- The transfer-job states of lib/database's `Upload` interface. -/
inductive UploadStatus where
  | pending | uploading | completed | failed | paused
  deriving DecidableEq, Repr

/-- The `Upload` row of lib/database. -/
structure Upload where
  id : String
  file_name : String
  file_size : Nat
  target_account_id : String
  upload_session_id : Option String
  status : UploadStatus
  progress_bytes : Nat
  created_at : Nat
  completed_at : Option Nat
  error_message : Option String
  deriving DecidableEq, Repr

/-- The error responses of the upload route: 400 missing files/target,
404 unknown account, 401 "Passphrase required to refresh token",
400 "Insufficient storage space in target account", and the catch-all
500. -/
inductive UploadRouteError where
  | missingParams | accountNotFound | passphraseRequired | insufficientSpace | serverError
  deriving DecidableEq, Repr

/-- The observable outcome of the upload route: the response (on success,
the successful and failed counts), the account store and the uploads
table after the request. -/
structure UploadRouteResult where
  response : Except UploadRouteError (Nat × Nat)
  store : List Account
  uploads : List Upload
  deriving Repr

/-- The upload record the route saves before starting a file's upload
(status `uploading`, zero progress). -/
def uploadRecord (uid : String) (f : FileDesc) (tid : String) (now : Nat) : Upload :=
  { id := uid, file_name := f.name, file_size := f.size, target_account_id := tid,
    upload_session_id := none, status := .uploading, progress_bytes := 0,
    created_at := now, completed_at := none, error_message := none }

/-- One file's upload attempt: on success the record is marked `completed`
(with `completed_at`), on a drive error it is marked `failed` with the
error message.  The remote upload itself is the oracle `driveUpload`. -/
def runUpload (driveUpload : FileDesc → Except String String) (now : Nat)
    (tid : String) (idGen : Nat → String) (p : Nat × FileDesc) : Upload × Bool :=
  let saved := uploadRecord (idGen p.1) p.2 tid now
  match driveUpload p.2 with
  | .ok _ => ({ saved with status := .completed, completed_at := some now }, true)
  | .error msg => ({ saved with status := .failed, error_message := some msg }, false)

/-- The upload route `POST`: validate the request, resolve the target
account, run the credential phase, compare the batch's total size with the
account's live available space (`getAvailableSpace`, an oracle value), and
only then start the per-file uploads. -/
def uploadPOST (files : List FileDesc) (target : Option String) (pass : Option String)
    (store : List Account) (uploads0 : List Upload) (now : Nat)
    (refreshAccessToken : String → String) (remoteFreeSpace : Nat)
    (driveUpload : FileDesc → Except String String) (idGen : Nat → String) :
    UploadRouteResult :=
  if files.isEmpty || !(strTruthy target) then
    { response := .error .missingParams, store := store, uploads := uploads0 }
  else
    match findAccount store (target.getD "") with
    | none => { response := .error .accountNotFound, store := store, uploads := uploads0 }
    | some account =>
      let cred := getAccessCredential account pass now refreshAccessToken
      match cred.outcome with
      | .error .needsPassphrase =>
          { response := .error .passphraseRequired, store := store, uploads := uploads0 }
      | .error .decryptFailed =>
          { response := .error .serverError, store := store, uploads := uploads0 }
      | .ok (_tok, account1) =>
        let store1 := if cred.exchanged then saveAccount store account1 else store
        let totalSize := (files.map (fun f => f.size)).sum
        if remoteFreeSpace < totalSize then
          { response := .error .insufficientSpace, store := store1, uploads := uploads0 }
        else
          let results := files.enum.map (runUpload driveUpload now (target.getD "") idGen)
          { response := .ok ((results.filter (fun r => r.2)).length,
              (results.filter (fun r => !r.2)).length),
            store := store1,
            uploads := uploads0 ++ results.map (fun r => r.1) }

/-- A success response implies the capacity gate passed: the batch's total
size fits in the live available space. -/
theorem uploadPOST_ok_capacity {files : List FileDesc} {target pass : Option String}
    {store : List Account} {uploads0 : List Upload} {now : Nat}
    {ex : String → String} {free : Nat} {dUp : FileDesc → Except String String}
    {idGen : Nat → String} {k : Nat × Nat}
    (h : (uploadPOST files target pass store uploads0 now ex free dUp idGen).response =
      .ok k) :
    (files.map (fun f => f.size)).sum ≤ free := by
  simp only [uploadPOST] at h
  split at h
  · exact Except.noConfusion h
  · split at h
    · exact Except.noConfusion h
    · split at h
      · exact Except.noConfusion h
      · exact Except.noConfusion h
      · split at h
        · exact Except.noConfusion h
        · omega

/-! Scenario inputs from the spec (§8): accounts A (5 GB free) and
B (2 GB free); files of 3 GB and 4 GB.  One GB is 1073741824 bytes. -/

/-- One gigabyte multiplier. -/
def gb (n : Nat) : Nat := n * 1073741824

/-- The 3 GB file of the spec's planner scenario. -/
def file3gb : PFile := ⟨"three.bin", gb 3, "application/octet-stream"⟩

/-- The 4 GB file of the spec's planner scenario. -/
def file4gb : PFile := ⟨"four.bin", gb 4, "application/octet-stream"⟩

/-- The accounts of the spec's planner scenario, in creation order. -/
def demoAccounts : List PAccount := [⟨"A", gb 5⟩, ⟨"B", gb 2⟩]

/-- C4 counterexample: on the spec's own scenario (A free 5 GB, B free
2 GB, files of 3 GB and 4 GB) the best-fit-decreasing planner places the
4 GB file on A and must report the 3 GB file unplaced, because after the
first placement no account (A: 1 GB left, B: 2 GB) can fit 3 GB — the
claimed plan "3 GB→B, none unplaced" would put a 3 GB file on an account
with 2 GB free, contradicting the planner's own fit rule. -/
theorem C4_scenario_leaves_three_gb_unplaced :
    planPlacement [file3gb, file4gb] demoAccounts = ([(file4gb, "A")], [file3gb]) ∧
      gb 2 < gb 3 ∧
      (file3gb, "B") ∉ (planPlacement [file3gb, file4gb] demoAccounts).1 ∧
      (planPlacement [file3gb, file4gb] demoAccounts).2 ≠ [] := by
  refine ⟨by decide, by decide, by decide, by decide⟩

/-- C4 (amended): the planner sorts the batch largest-first and places each
file on the fitting account with the largest remaining free capacity
(earliest on ties, none when no account fits); on the spec's scenario this
places the 4 GB file on A and reports the 3 GB file unplaced. -/
theorem C4_planner_best_fit_decreasing :
    (∀ fs, List.Sorted (fun a b => b.sizeBytes ≤ a.sizeBytes) (sortDesc fs)) ∧
    (∀ accs size a, chooseBest accs size = some a →
      a ∈ accs ∧ size ≤ a.freeBytes ∧
        ∀ b ∈ accs, size ≤ b.freeBytes → b.freeBytes ≤ a.freeBytes) ∧
    (∀ accs size, chooseBest accs size = none → ∀ b ∈ accs, ¬ size ≤ b.freeBytes) ∧
    planPlacement [file3gb, file4gb] demoAccounts = ([(file4gb, "A")], [file3gb]) := by
  refine ⟨sorted_sortDesc, ?_, ?_, by decide⟩
  · intro accs size a h
    exact chooseBest_spec h
  · intro accs size h
    exact chooseBest_none h

/-- Witness for the amended C4 at concrete inputs: on the scenario
snapshot, the best account for the 4 GB file is A. -/
theorem C4_planner_witness :
    chooseBest demoAccounts (gb 4) = some ⟨"A", gb 5⟩ ∧
      ((⟨"A", gb 5⟩ : PAccount) ∈ demoAccounts ∧ gb 4 ≤ gb 5 ∧
        ∀ b ∈ demoAccounts, gb 4 ≤ b.freeBytes → b.freeBytes ≤ gb 5) := by
  have h := C4_planner_best_fit_decreasing.2.1 demoAccounts (gb 4) ⟨"A", gb 5⟩ (by decide)
  exact ⟨by decide, h⟩

/-- The 2 GB file of the spec's capacity scenario. -/
def fd2gb : FileDesc := ⟨"big.bin", gb 2, "application/octet-stream"⟩

/-- Planner view of the 2 GB file. -/
def pfile2gb : PFile := ⟨"big.bin", gb 2, "application/octet-stream"⟩

/-- The single account of the capacity scenario, with a valid cached
token. -/
def c5Account : Account :=
  { id := "A", email := "a@example.com", name := "A",
    refresh_token := (encryptRefreshToken "rtok" "pw" 0).1,
    access_token := some "tok", token_expiry := some 99,
    quota_bytes_total := some (gb 1), quota_bytes_used := some 0,
    created_at := 1, updated_at := 1 }

/-- C5: the planner never assigns a file to an account whose free capacity
is smaller than the file's size; the upload route starts no upload and
returns no success when the live available space is below the batch's
total size, and a success response implies the whole batch fits; on the
spec's scenario (a single account with 1 GB free, a 2 GB file) the planner
reports the file unplaced and the route surfaces the insufficient-space
error with no upload record created. -/
theorem C5_no_placement_beyond_capacity :
    (∀ fs accs f aid, (f, aid) ∈ (planPlacement fs accs).1 →
      ∃ a ∈ accs, a.id = aid ∧ f.sizeBytes ≤ a.freeBytes) ∧
    (∀ files target pass store uploads0 now ex free dUp idGen,
      free < (files.map (fun f => f.size)).sum →
      (uploadPOST files target pass store uploads0 now ex free dUp idGen).uploads =
          uploads0 ∧
        ∀ k, (uploadPOST files target pass store uploads0 now ex free dUp idGen).response ≠
          .ok k) ∧
    (∀ files target pass store uploads0 now ex free dUp idGen k f, f ∈ files →
      (uploadPOST files target pass store uploads0 now ex free dUp idGen).response =
        .ok k →
      f.size ≤ free) ∧
    planPlacement [pfile2gb] [⟨"A", gb 1⟩] = ([], [pfile2gb]) ∧
    uploadPOST [fd2gb] (some "A") (some "pw") [c5Account] [] 10 (fun s => s) (gb 1)
        (fun _ => .ok "fid") (fun n => "u" ++ toString n) =
      { response := .error .insufficientSpace, store := [c5Account], uploads := [] } := by
  refine ⟨planPlacement_safe, ?_, ?_, by decide, by rfl⟩
  · intro files target pass store uploads0 now ex free dUp idGen hfree
    simp only [uploadPOST]
    split
    · exact ⟨rfl, fun k h => Except.noConfusion h⟩
    · split
      · exact ⟨rfl, fun k h => Except.noConfusion h⟩
      · split
        · exact ⟨rfl, fun k h => Except.noConfusion h⟩
        · exact ⟨rfl, fun k h => Except.noConfusion h⟩
        · split
          · exact ⟨rfl, fun k h => Except.noConfusion h⟩
          · exact ⟨rfl, fun k h => Except.noConfusion h⟩
  · intro files target pass store uploads0 now ex free dUp idGen k f hf hok
    have hcap := uploadPOST_ok_capacity hok
    have hle : f.size ≤ (files.map (fun g => g.size)).sum :=
      List.single_le_sum (fun x _ => Nat.zero_le x) _ (List.mem_map_of_mem _ hf)
    omega

/-- Witness for C5 at concrete inputs: the 4 GB placement of the planner
scenario targets a fitting account, and the insufficient-space run of the
upload route creates no uploads and returns no success. -/
theorem C5_no_placement_witness :
    ((file4gb, "A") ∈ (planPlacement [file3gb, file4gb] demoAccounts).1 ∧
      ∃ a ∈ demoAccounts, a.id = "A" ∧ file4gb.sizeBytes ≤ a.freeBytes) ∧
    (gb 1 < ([fd2gb].map (fun f => f.size)).sum ∧
      (uploadPOST [fd2gb] (some "A") (some "pw") [c5Account] [] 10 (fun s => s) (gb 1)
          (fun _ => .ok "fid") (fun n => "u" ++ toString n)).uploads = [] ∧
      (uploadPOST [fd2gb] (some "A") (some "pw") [c5Account] [] 10 (fun s => s) (gb 1)
          (fun _ => .ok "fid") (fun n => "u" ++ toString n)).response ≠ .ok (0, 0)) := by
  have h1 := C5_no_placement_beyond_capacity.1 [file3gb, file4gb] demoAccounts file4gb "A"
    (by decide)
  have h2 := C5_no_placement_beyond_capacity.2.1 [fd2gb] (some "A") (some "pw") [c5Account]
    [] 10 (fun s => s) (gb 1) (fun _ => .ok "fid") (fun n => "u" ++ toString n) (by decide)
  exact ⟨⟨by decide, h1⟩, by decide, h2.1, h2.2 (0, 0)⟩

/-! ## Download route: bulk restore (`handleBulkDownload`) -/

/-- The `FileMetadata` row of lib/database. -/
structure FileMetadata where
  id : String
  name : String
  size : Nat
  mime_type : String
  account_id : String
  drive_file_id : String
  parent_id : Option String
  modified_time : String
  created_time : String
  thumbnail_link : Option String
  web_view_link : Option String
  download_link : Option String
  indexed_at : Nat
  deriving DecidableEq, Repr

/-- One entry of the output ZIP archive: its path inside the archive and
its content (bytes modelled as a string). -/
structure ArchiveEntry where
  entryName : String
  content : String
  deriving DecidableEq, Repr

/-- Failures of the bulk download: the 404 "No valid files found" response,
and the abort path (`controller.error`) taken when a decryption or refresh
throw escapes the per-account loop. -/
inductive BulkError where
  | noValidFiles
  | aborted
  deriving DecidableEq, Repr

/-- First-occurrence account ids of a file list (the key insertion order of
the `reduce`-built grouping object in the source). -/
def keysAux : List FileMetadata → List String → List String
  | [], _ => []
  | f :: rest, seen =>
    if f.account_id ∈ seen then keysAux rest seen
    else f.account_id :: keysAux rest (f.account_id :: seen)

/-- The grouping keys of `filesByAccount`, in first-occurrence order. -/
def accountKeys (l : List FileMetadata) : List String :=
  keysAux l []

/-- One file's archive entry: the downloaded content under
`email/name`, or — when the download fails — the synthetic error-marker
entry `errors/name.error.txt`. -/
def entryFor (account : Account) (download : String → Except String String)
    (f : FileMetadata) : ArchiveEntry :=
  match download f.drive_file_id with
  | .ok buf => ⟨account.email ++ "/" ++ f.name, buf⟩
  | .error e => ⟨"errors/" ++ f.name ++ ".error.txt",
      "Error downloading " ++ f.name ++ ": " ++ e⟩

/-- One account group of the bulk download: a missing account or a
credential refusal (`continue` in the source) contributes no entries at
all; a decryption failure throws (aborting the archive); otherwise each of
the group's files is appended via `entryFor`. -/
def processAccount (store : List Account) (pass : Option String) (now : Nat)
    (refreshAccessToken : String → String) (download : String → Except String String)
    (aid : String) (gfiles : List FileMetadata) : Except Unit (List ArchiveEntry) :=
  match findAccount store aid with
  | none => .ok []
  | some account =>
    if needsRefresh account now then
      if strTruthy pass then
        match decryptRefreshToken account.refresh_token (pass.getD "") with
        | .error _ => .error ()
        | .ok rt =>
            let _tok := refreshAccessToken rt
            .ok (gfiles.map (entryFor account download))
      else .ok []
    else .ok (gfiles.map (entryFor account download))

/-- The bulk download's per-account loop over the grouping keys. -/
def processGroups (store : List Account) (pass : Option String) (now : Nat)
    (refreshAccessToken : String → String) (download : String → Except String String) :
    List String → List FileMetadata → Except Unit (List ArchiveEntry)
  | [], _ => .ok []
  | aid :: rest, files =>
    match processAccount store pass now refreshAccessToken download aid
        (files.filter (fun f => f.account_id == aid)) with
    | .error _ => .error ()
    | .ok es =>
      match processGroups store pass now refreshAccessToken download rest files with
      | .error _ => .error ()
      | .ok es2 => .ok (es ++ es2)

/-- `handleBulkDownload`: select the requested files from the index, group
them by account and stream each group into the archive; `.ok entries`
means the archive was finalized with exactly those entries. -/
def handleBulkDownload (fileIds : List String) (pass : Option String)
    (dbFiles : List FileMetadata) (store : List Account) (now : Nat)
    (refreshAccessToken : String → String) (download : String → Except String String) :
    Except BulkError (List ArchiveEntry) :=
  let files := dbFiles.filter (fun f => fileIds.contains f.id)
  if files.isEmpty then .error .noValidFiles
  else
    match processGroups store pass now refreshAccessToken download
        (accountKeys files) files with
    | .error _ => .error .aborted
    | .ok entries => .ok entries

/-- A file-index row with the metadata fields that the bulk download never
reads set to fixed fillers. -/
def mkFileMeta (fid fname aid dfid : String) : FileMetadata :=
  { id := fid, name := fname, size := 1, mime_type := "application/octet-stream",
    account_id := aid, drive_file_id := dfid, parent_id := none,
    modified_time := "2024-01-01T00:00:00Z", created_time := "2024-01-01T00:00:00Z",
    thumbnail_link := none, web_view_link := none, download_link := none,
    indexed_at := 0 }

/-- A file stored on the account whose credentials cannot be refreshed. -/
def c7FileA : FileMetadata := mkFileMeta "fA" "report.pdf" "acctA" "dA"

/-- A file stored on the healthy account. -/
def c7FileB : FileMetadata := mkFileMeta "fB" "photo.jpg" "acctB" "dB"

/-- An account whose cached token is expired (nonzero past expiry); with no
passphrase supplied its files are skipped by the bulk download. -/
def c7AccountA : Account :=
  { id := "acctA", email := "a@example.com", name := "A",
    refresh_token := (encryptRefreshToken "rtokA" "pw" 0).1,
    access_token := some "tokA", token_expiry := some 5,
    quota_bytes_total := some 100, quota_bytes_used := some 1,
    created_at := 1, updated_at := 1 }

/-- An account with a valid cached token. -/
def c7AccountB : Account :=
  { id := "acctB", email := "b@example.com", name := "B",
    refresh_token := (encryptRefreshToken "rtokB" "pw" 1).1,
    access_token := some "tokB", token_expiry := some 9999,
    quota_bytes_total := some 100, quota_bytes_used := some 1,
    created_at := 2, updated_at := 2 }

/-- C7 counterexample: a bulk restore of N = 2 files where one file's
account needs a credential refresh and no passphrase is supplied produces
an archive with a single entry — the refused file is silently omitted (the
source `continue`s past the account) rather than replaced by an
error-marker entry, so the finalized archive does not contain N
entries. -/
theorem C7_credential_refusal_omits_entries :
    handleBulkDownload ["fA", "fB"] none [c7FileA, c7FileB] [c7AccountA, c7AccountB] 10
        (fun rt => rt ++ "-new") (fun _ => .ok "DATA") =
      .ok [⟨"b@example.com/photo.jpg", "DATA"⟩] ∧
      (["fA", "fB"] : List String).length = 2 ∧
      ([(⟨"b@example.com/photo.jpg", "DATA"⟩ : ArchiveEntry)]).length = 1 := by
  exact ⟨rfl, rfl, rfl⟩

/-- Every grouping key is the account id of some listed file. -/
theorem keysAux_subset : ∀ (l : List FileMetadata) (seen : List String) (k : String),
    k ∈ keysAux l seen → ∃ f ∈ l, f.account_id = k := by
  intro l
  induction l with
  | nil => intro seen k h; simp [keysAux] at h
  | cons f rest ih =>
    intro seen k h
    simp only [keysAux] at h
    by_cases hm : f.account_id ∈ seen
    · rw [if_pos hm] at h
      rcases ih _ _ h with ⟨g, hg, hgk⟩
      exact ⟨g, List.mem_cons_of_mem _ hg, hgk⟩
    · rw [if_neg hm] at h
      rcases List.mem_cons.mp h with rfl | h2
      · exact ⟨f, List.mem_cons_self _ _, rfl⟩
      · rcases ih _ _ h2 with ⟨g, hg, hgk⟩
        exact ⟨g, List.mem_cons_of_mem _ hg, hgk⟩

/-- Grouping keys avoid the already-seen keys. -/
theorem keysAux_avoids : ∀ (l : List FileMetadata) (seen : List String) (k : String),
    k ∈ keysAux l seen → k ∉ seen := by
  intro l
  induction l with
  | nil => intro seen k h; simp [keysAux] at h
  | cons f rest ih =>
    intro seen k h
    simp only [keysAux] at h
    by_cases hm : f.account_id ∈ seen
    · rw [if_pos hm] at h
      exact ih _ _ h
    · rw [if_neg hm] at h
      rcases List.mem_cons.mp h with rfl | h2
      · exact hm
      · intro hk
        exact ih _ _ h2 (List.mem_cons_of_mem _ hk)

/-- The grouping keys are pairwise distinct. -/
theorem keysAux_nodup : ∀ (l : List FileMetadata) (seen : List String),
    (keysAux l seen).Nodup := by
  intro l
  induction l with
  | nil => intro seen; simp [keysAux]
  | cons f rest ih =>
    intro seen
    simp only [keysAux]
    by_cases hm : f.account_id ∈ seen
    · rw [if_pos hm]; exact ih _
    · rw [if_neg hm]
      refine List.nodup_cons.mpr ⟨?_, ih _⟩
      intro hmem
      exact keysAux_avoids _ _ _ hmem (List.mem_cons_self _ _)

/-- Every listed file's account id is a seen key or a grouping key. -/
theorem keysAux_covers : ∀ (l : List FileMetadata) (seen : List String) (f : FileMetadata),
    f ∈ l → f.account_id ∈ seen ∨ f.account_id ∈ keysAux l seen := by
  intro l
  induction l with
  | nil => intro seen f h; cases h
  | cons g rest ih =>
    intro seen f h
    simp only [keysAux]
    by_cases hm : g.account_id ∈ seen
    · rw [if_pos hm]
      rcases List.mem_cons.mp h with rfl | h2
      · exact Or.inl hm
      · exact ih seen f h2
    · rw [if_neg hm]
      rcases List.mem_cons.mp h with rfl | h2
      · exact Or.inr (List.mem_cons_self _ _)
      · rcases ih (g.account_id :: seen) f h2 with hs | hk
        · rcases List.mem_cons.mp hs with he | hs2
          · exact Or.inr (he ▸ List.mem_cons_self _ _)
          · exact Or.inl hs2
        · exact Or.inr (List.mem_cons_of_mem _ hk)

/-- Every file's account id occurs among the grouping keys. -/
theorem mem_accountKeys {l : List FileMetadata} {f : FileMetadata} (h : f ∈ l) :
    f.account_id ∈ accountKeys l := by
  rcases keysAux_covers l [] f h with hs | hk
  · cases hs
  · exact hk

/-- Summing a pointwise sum of maps splits into two sums. -/
theorem sum_map_add (ks : List String) (A B : String → Nat) :
    (ks.map (fun k => A k + B k)).sum = (ks.map A).sum + (ks.map B).sum := by
  induction ks with
  | nil => simp
  | cons k rest ih => simp [ih]; omega

/-- An indicator summed over a list avoiding the marked key is zero. -/
theorem sum_ite_zero (ks : List String) (x : String) (hx : x ∉ ks) :
    (ks.map (fun k => if x = k then 1 else 0)).sum = 0 := by
  induction ks with
  | nil => simp
  | cons k rest ih =>
    have hxk : x ≠ k := fun he => hx (he ▸ List.mem_cons_self _ _)
    have hxr : x ∉ rest := fun hr => hx (List.mem_cons_of_mem _ hr)
    simp [hxk, ih hxr]

/-- An indicator summed over a duplicate-free list containing the marked
key is one. -/
theorem sum_ite_one (ks : List String) (x : String) (hn : ks.Nodup) (hx : x ∈ ks) :
    (ks.map (fun k => if x = k then 1 else 0)).sum = 1 := by
  induction ks with
  | nil => cases hx
  | cons k rest ih =>
    rcases List.nodup_cons.mp hn with ⟨hk, hrest⟩
    by_cases hxk : x = k
    · subst hxk
      simp [sum_ite_zero rest x hk]
    · have hxr : x ∈ rest := by
        rcases List.mem_cons.mp hx with he | hr
        · exact absurd he hxk
        · exact hr
      simp [hxk, ih hrest hxr]

/-- Grouping a file list by a duplicate-free covering key set partitions
it: the group sizes sum to the list's length. -/
theorem sum_filter_lengths : ∀ (l : List FileMetadata) (ks : List String), ks.Nodup →
    (∀ f ∈ l, f.account_id ∈ ks) →
    (ks.map (fun k => (l.filter (fun f => f.account_id == k)).length)).sum = l.length := by
  intro l
  induction l with
  | nil => intro ks _ _; simp
  | cons f rest ih =>
    intro ks hn hc
    have hsplit : ∀ k : String, ((f :: rest).filter (fun g => g.account_id == k)).length =
        (if f.account_id = k then 1 else 0) +
          (rest.filter (fun g => g.account_id == k)).length := by
      intro k
      rw [List.filter_cons]
      by_cases h : f.account_id = k
      · simp [h]
        omega
      · simp [h]
    calc (ks.map fun k => ((f :: rest).filter (fun g => g.account_id == k)).length).sum
        = (ks.map fun k => (if f.account_id = k then 1 else 0) +
            (rest.filter (fun g => g.account_id == k)).length).sum := by
          simp only [hsplit]
      _ = (ks.map fun k => if f.account_id = k then 1 else 0).sum +
            (ks.map fun k => (rest.filter (fun g => g.account_id == k)).length).sum :=
          sum_map_add ks _ _
      _ = 1 + rest.length := by
          rw [sum_ite_one ks _ hn (hc f (List.mem_cons_self _ _)),
            ih ks hn (fun g hg => hc g (List.mem_cons_of_mem _ hg))]
      _ = (f :: rest).length := by simp [Nat.add_comm]

/-- A group whose account is present and needs no refresh contributes one
`entryFor` entry per group file. -/
theorem processAccount_healthy {store : List Account} {pass : Option String} {now : Nat}
    {ex : String → String} {dl : String → Except String String} {aid : String}
    {a : Account} (gfiles : List FileMetadata)
    (hfa : findAccount store aid = some a) (hnr : needsRefresh a now = false) :
    processAccount store pass now ex dl aid gfiles = .ok (gfiles.map (entryFor a dl)) := by
  simp only [processAccount, hfa]
  simp [hnr]

/-- When every grouping key resolves to an account that needs no refresh,
the per-account loop succeeds; the entry count is the sum of the group
sizes and every group file's `entryFor` entry is in the output. -/
theorem processGroups_healthy (store : List Account) (pass : Option String) (now : Nat)
    (ex : String → String) (dl : String → Except String String) :
    ∀ (ks : List String) (files : List FileMetadata),
    (∀ k ∈ ks, ∃ a, findAccount store k = some a ∧ needsRefresh a now = false) →
    ∃ entries, processGroups store pass now ex dl ks files = .ok entries ∧
      entries.length =
        (ks.map (fun k => (files.filter (fun f => f.account_id == k)).length)).sum ∧
      ∀ k ∈ ks, ∀ a, findAccount store k = some a →
        ∀ f ∈ files.filter (fun f => f.account_id == k), entryFor a dl f ∈ entries := by
  intro ks
  induction ks with
  | nil =>
    intro files _
    exact ⟨[], rfl, by simp, by intro k hk; cases hk⟩
  | cons k rest ih =>
    intro files h
    obtain ⟨a, hfa, hnr⟩ := h k (List.mem_cons_self _ _)
    obtain ⟨es2, he2, hlen2, hmem2⟩ :=
      ih files (fun k2 hk2 => h k2 (List.mem_cons_of_mem _ hk2))
    refine ⟨(files.filter (fun f => f.account_id == k)).map (entryFor a dl) ++ es2,
      ?_, ?_, ?_⟩
    · simp only [processGroups, processAccount_healthy _ hfa hnr, he2]
    · simp [hlen2]
    · intro k2 hk2 a2 hfa2 f hf
      rcases List.mem_cons.mp hk2 with rfl | hk3
      · have ha2 : a2 = a := by
          rw [hfa] at hfa2
          exact (Option.some.inj hfa2).symm
        subst ha2
        exact List.mem_append_left _ (List.mem_map_of_mem _ hf)
      · exact List.mem_append_right _ (hmem2 k2 hk3 a2 hfa2 f hf)

/-- C7 (amended): when every requested file's account is present with a
valid cached credential, the bulk archive finalizes with exactly one entry
per selected file — the download's content entry on success and the
synthetic error-marker entry on a download failure; but a file whose
account is missing or needs a credential refresh that cannot be performed
is silently omitted (no marker entry), and a failing decryption aborts the
archive, as the counterexample shows. -/
theorem C7_bulk_archive_entries (fileIds : List String) (pass : Option String)
    (dbFiles : List FileMetadata) (store : List Account) (now : Nat)
    (ex : String → String) (dl : String → Except String String)
    (hne : dbFiles.filter (fun f => fileIds.contains f.id) ≠ [])
    (h : ∀ f ∈ dbFiles.filter (fun f => fileIds.contains f.id),
      ∃ a, findAccount store f.account_id = some a ∧ needsRefresh a now = false) :
    ∃ entries, handleBulkDownload fileIds pass dbFiles store now ex dl = .ok entries ∧
      entries.length = (dbFiles.filter (fun f => fileIds.contains f.id)).length ∧
      ∀ f ∈ dbFiles.filter (fun f => fileIds.contains f.id), ∀ a,
        findAccount store f.account_id = some a → entryFor a dl f ∈ entries := by
  have hkeys : ∀ k ∈ accountKeys (dbFiles.filter (fun f => fileIds.contains f.id)),
      ∃ a, findAccount store k = some a ∧ needsRefresh a now = false := by
    intro k hk
    obtain ⟨f, hf, hfk⟩ := keysAux_subset _ _ _ hk
    obtain ⟨a, hfa, hnr⟩ := h f hf
    exact ⟨a, hfk ▸ hfa, hnr⟩
  obtain ⟨entries, heq, hlen, hmem⟩ :=
    processGroups_healthy store pass now ex dl
      (accountKeys (dbFiles.filter (fun f => fileIds.contains f.id)))
      (dbFiles.filter (fun f => fileIds.contains f.id)) hkeys
  refine ⟨entries, ?_, ?_, ?_⟩
  · simp only [handleBulkDownload]
    rw [if_neg (by simpa using hne), heq]
  · rw [hlen]
    exact sum_filter_lengths _ _ (keysAux_nodup _ _)
      (fun f hf => mem_accountKeys hf)
  · intro f hf a hfa
    exact hmem f.account_id (mem_accountKeys hf) a hfa f
      (List.mem_filter.mpr ⟨hf, by simp⟩)

/-- Witness for the amended C7 at concrete inputs: one healthy account, one
requested file whose download fails, yielding a finalized one-entry archive
with the error marker. -/
theorem C7_bulk_archive_witness :
    ∃ entries, handleBulkDownload ["fB"] none [c7FileB] [c7AccountB] 10 (fun rt => rt)
        (fun _ => .error "network down") = .ok entries ∧
      entries.length = ([c7FileB].filter
        (fun f => (["fB"] : List String).contains f.id)).length ∧
      ∀ f ∈ [c7FileB].filter (fun f => (["fB"] : List String).contains f.id), ∀ a,
        findAccount [c7AccountB] f.account_id = some a →
          entryFor a (fun _ => .error "network down") f ∈ entries := by
  refine C7_bulk_archive_entries ["fB"] none [c7FileB] [c7AccountB] 10 (fun rt => rt)
    (fun _ => .error "network down") (by decide) ?_
  intro f hf
  have hfb : f = c7FileB := (by simpa using hf : f = c7FileB ∧ f.id = "fB").1
  subst hfb
  exact ⟨c7AccountB, rfl, rfl⟩

/-! ## Quota mutation paths (accounts route `PUT`, `syncAccountFiles`,
upload-route token refresh) -/

/-- The account update the accounts-route `PUT` refresh writes: new token,
new expiry, and the quota snapshot re-read from the remote. -/
def putRefreshedAccount (a : Account) (tok : String) (qt qu : Nat) (now : Nat) : Account :=
  { a with
      access_token := some tok
      token_expiry := some (now + 3600000)
      quota_bytes_total := some qt
      quota_bytes_used := some qu
      updated_at := now }

/-- The account update `syncAccountFiles` writes after re-indexing a
drive: new token, new expiry, and the quota snapshot re-read from the
remote. -/
def syncRefreshedAccount (a : Account) (tok : String) (qt qu : Nat) (now : Nat) : Account :=
  { a with
      access_token := some tok
      token_expiry := some (now + 3600000)
      quota_bytes_total := some qt
      quota_bytes_used := some qu
      updated_at := now }

/-- An account with a stored quota snapshot, used to exhibit the sync
path's quota write. -/
def c8Account : Account :=
  { id := "acct8", email := "c@example.com", name := "C",
    refresh_token := (encryptRefreshToken "rtok" "pw" 2).1,
    access_token := some "tok", token_expiry := some 9999,
    quota_bytes_total := some 1000, quota_bytes_used := some 10,
    created_at := 3, updated_at := 3 }

/-- C8 counterexample: the file-sync operation (`syncAccountFiles`,
triggered by a file-listing request with `refresh=true`) mutates the
stored quota fields, so the quota-refresh endpoint is not the only
operation that writes `quota_bytes_total`/`quota_bytes_used`. -/
theorem C8_sync_mutates_quota :
    (syncRefreshedAccount c8Account "tok2" 2000 42 7).quota_bytes_used = some 42 ∧
      c8Account.quota_bytes_used = some 10 ∧
      (syncRefreshedAccount c8Account "tok2" 2000 42 7).quota_bytes_used ≠
        c8Account.quota_bytes_used ∧
      (syncRefreshedAccount c8Account "tok2" 2000 42 7).quota_bytes_total ≠
        c8Account.quota_bytes_total := by
  exact ⟨rfl, rfl, by decide, by decide⟩

/-- C8 (amended): the stored quota fields are written only by the two
paths that re-read live capacity from the remote — the accounts-route
refresh and the per-account file sync; the access-token refresh performed
during an upload leaves `quota_bytes_total` and `quota_bytes_used`
unchanged. -/
theorem C8_quota_write_paths :
    (∀ a pass now ex tok a1,
      (getAccessCredential a pass now ex).outcome = .ok (tok, a1) →
      a1.quota_bytes_total = a.quota_bytes_total ∧
        a1.quota_bytes_used = a.quota_bytes_used) ∧
    (∀ a tok qt qu now,
      (putRefreshedAccount a tok qt qu now).quota_bytes_total = some qt ∧
        (putRefreshedAccount a tok qt qu now).quota_bytes_used = some qu) ∧
    (∀ a tok qt qu now,
      (syncRefreshedAccount a tok qt qu now).quota_bytes_total = some qt ∧
        (syncRefreshedAccount a tok qt qu now).quota_bytes_used = some qu) := by
  refine ⟨?_, fun a tok qt qu now => ⟨rfl, rfl⟩, fun a tok qt qu now => ⟨rfl, rfl⟩⟩
  intro a pass now ex tok a1 h
  simp only [getAccessCredential] at h
  split at h
  · split at h
    · split at h
      · exact Except.noConfusion h
      · obtain ⟨h1, h2⟩ := Prod.mk.injEq .. ▸ Except.ok.inj h
        subst h2
        exact ⟨rfl, rfl⟩
    · exact Except.noConfusion h
  · obtain ⟨h1, h2⟩ := Prod.mk.injEq .. ▸ Except.ok.inj h
    subst h2
    exact ⟨rfl, rfl⟩

/-- The account value written by the witness refresh. -/
def c8Refreshed : Account :=
  { c6FreshAccount with
      access_token := some "rtok-new"
      token_expiry := some (50 + 3600000)
      updated_at := 50 }

/-- Witness for the amended C8 at concrete inputs: an upload-route token
refresh leaves the quota snapshot untouched. -/
theorem C8_quota_write_witness :
    c8Refreshed.quota_bytes_total = c6FreshAccount.quota_bytes_total ∧
      c8Refreshed.quota_bytes_used = c6FreshAccount.quota_bytes_used := by
  exact C8_quota_write_paths.1 c6FreshAccount (some "pw") 50 (fun rt => rt ++ "-new")
    "rtok-new" c8Refreshed (by rfl)

/-! ## Upload progress (lib/database `updateUploadProgress`) -/

/-- `updateUploadProgress`: `UPDATE uploads SET progress_bytes = ? WHERE
id = ?` — an unconditional overwrite of the job's progress value. -/
def updateUploadProgress (uploads : List Upload) (uid : String) (progressBytes : Nat) :
    List Upload :=
  uploads.map (fun u => if u.id == uid then { u with progress_bytes := progressBytes } else u)

/-- The stored `progress_bytes` of a job. -/
def storedProgress (uploads : List Upload) (uid : String) : Option Nat :=
  (uploads.find? (fun u => u.id == uid)).map (fun u => u.progress_bytes)

/-- The sequence of stored progress values a job goes through while a
sequence of progress reports is applied. -/
def progressTrace (uploads : List Upload) (uid : String) : List Nat → List Nat
  | [] => []
  | b :: bs =>
      (storedProgress (updateUploadProgress uploads uid b) uid).getD 0 ::
        progressTrace (updateUploadProgress uploads uid b) uid bs

/-- A job row mid-transfer at 100 bytes. -/
def c9Upload : Upload :=
  { id := "job1", file_name := "big.bin", file_size := 200, target_account_id := "acctB",
    upload_session_id := none, status := .uploading, progress_bytes := 100,
    created_at := 0, completed_at := none, error_message := none }

/-- C9 counterexample: `updateUploadProgress` blindly overwrites the stored
value, so a progress report of 50 applied to a job standing at 100 makes
the stored `progress_bytes` decrease from 100 to 50. -/
theorem C9_stored_progress_can_decrease :
    storedProgress [c9Upload] "job1" = some 100 ∧
      storedProgress (updateUploadProgress [c9Upload] "job1" 50) "job1" = some 50 ∧
      (50 : Nat) < 100 := by
  exact ⟨rfl, rfl, by decide⟩

/-- Searching by id commutes with an id-preserving per-row rewrite. -/
theorem find?_map_pred (g : Upload → Upload) (hg : ∀ u, (g u).id = u.id)
    (l : List Upload) (uid : String) :
    (l.map g).find? (fun u => u.id == uid) =
      (l.find? (fun u => u.id == uid)).map g := by
  induction l with
  | nil => rfl
  | cons u rest ih =>
    simp only [List.map_cons, List.find?_cons, hg u]
    by_cases hid : (u.id == uid) = true
    · rw [hid]
      rfl
    · rw [Bool.not_eq_true] at hid
      rw [hid]
      exact ih

/-- Updating a job's progress leaves the stored value at exactly the
reported number (last write wins). -/
theorem storedProgress_update : ∀ (uploads : List Upload) (uid : String) (b : Nat),
    (storedProgress uploads uid).isSome = true →
    storedProgress (updateUploadProgress uploads uid b) uid = some b := by
  intro uploads uid b h
  rcases hf : uploads.find? (fun u => u.id == uid) with _ | u0
  · rw [storedProgress, hf] at h
    simp at h
  · have hpe : u0.id = uid := by
      have hq := List.find?_some hf
      simpa using hq
    rw [storedProgress, updateUploadProgress,
      find?_map_pred (fun u => if u.id == uid then { u with progress_bytes := b } else u)
        (fun u => by
          by_cases hu : (u.id == uid) = true
          · simp [hu]
          · simp [hu]) uploads uid,
      hf]
    simp [hpe]

/-- The job keeps existing after a progress update. -/
theorem storedProgress_update_isSome : ∀ (uploads : List Upload) (uid : String) (b : Nat),
    (storedProgress uploads uid).isSome = true →
    (storedProgress (updateUploadProgress uploads uid b) uid).isSome = true := by
  intro uploads uid b h
  rw [storedProgress_update uploads uid b h]
  rfl

/-- For an existing job, the stored trace is exactly the reported
sequence. -/
theorem progressTrace_eq_reports : ∀ (bs : List Nat) (uploads : List Upload) (uid : String),
    (storedProgress uploads uid).isSome = true →
    progressTrace uploads uid bs = bs := by
  intro bs
  induction bs with
  | nil => intro uploads uid _; rfl
  | cons b rest ih =>
    intro uploads uid h
    simp only [progressTrace]
    rw [storedProgress_update uploads uid b h]
    rw [ih _ uid (storedProgress_update_isSome uploads uid b h)]
    rfl

/-- C9 (amended): `updateUploadProgress` stores the reported value as-is
(no monotonic clamp), so the stored per-job progress trace equals the
reported sequence; it is non-decreasing exactly when the callback's
reports are non-decreasing from the job's current value. -/
theorem C9_progress_follows_reports (uploads : List Upload) (uid : String)
    (bs : List Nat) (p0 : Nat) (h0 : storedProgress uploads uid = some p0)
    (hchain : List.Chain (· ≤ ·) p0 bs) :
    progressTrace uploads uid bs = bs ∧
      List.Chain (· ≤ ·) p0 (progressTrace uploads uid bs) := by
  have hsome : (storedProgress uploads uid).isSome = true := by rw [h0]; rfl
  have he := progressTrace_eq_reports bs uploads uid hsome
  refine ⟨he, ?_⟩
  rw [he]
  exact hchain

/-- Witness for the amended C9 at concrete inputs: non-decreasing reports
100, 150 applied to a job standing at 100 yield the non-decreasing stored
trace 100, 150. -/
theorem C9_progress_follows_witness :
    progressTrace [c9Upload] "job1" [100, 150] = [100, 150] ∧
      List.Chain (· ≤ ·) 100 (progressTrace [c9Upload] "job1" [100, 150]) := by
  exact C9_progress_follows_reports [c9Upload] "job1" [100, 150] 100 rfl
    (.cons (by decide) (.cons (by decide) .nil))

/-! ## Accounts listing (accounts route `GET`) -/

/-- The shape of an account in the listing response: exactly the fields
the route's sanitization keeps. -/
structure SanitizedAccount where
  id : String
  email : String
  name : String
  quota_bytes_total : Option Nat
  quota_bytes_used : Option Nat
  created_at : Nat
  updated_at : Nat
  deriving DecidableEq, Repr

/-- The per-account sanitization of the accounts route: drop
`refresh_token`, `access_token` and `token_expiry`. -/
def sanitizeAccount (a : Account) : SanitizedAccount :=
  { id := a.id, email := a.email, name := a.name,
    quota_bytes_total := a.quota_bytes_total, quota_bytes_used := a.quota_bytes_used,
    created_at := a.created_at, updated_at := a.updated_at }

/-- Stable insertion by `created_at` (ascending), modelling the query's
`ORDER BY created_at ASC`. -/
def insertByCreated (a : Account) : List Account → List Account
  | [] => [a]
  | b :: rest =>
    if a.created_at ≤ b.created_at then a :: b :: rest else b :: insertByCreated a rest

/-- `database.getAccounts`: the stored accounts ordered by `created_at`
ascending (stable). -/
def sortByCreated (l : List Account) : List Account :=
  l.foldr insertByCreated []

/-- The accounts-route `GET`: list the stored accounts in creation order
and sanitize each one. -/
def accountsGET (store : List Account) : List SanitizedAccount :=
  (sortByCreated store).map sanitizeAccount

/-- Sanitize-equal accounts have equal creation stamps. -/
theorem created_eq_of_sanitize_eq {a b : Account}
    (h : sanitizeAccount a = sanitizeAccount b) : a.created_at = b.created_at :=
  congrArg SanitizedAccount.created_at h

/-- Insertion by creation stamp respects pointwise sanitize-equality. -/
theorem forall2_insertByCreated {a b : Account} {l m : List Account}
    (hab : sanitizeAccount a = sanitizeAccount b)
    (h : List.Forall₂ (fun x y => sanitizeAccount x = sanitizeAccount y) l m) :
    List.Forall₂ (fun x y => sanitizeAccount x = sanitizeAccount y)
      (insertByCreated a l) (insertByCreated b m) := by
  induction h with
  | nil => exact .cons hab .nil
  | @cons x y l2 m2 hxy hrest ih =>
    have hkey : (a.created_at ≤ x.created_at) = (b.created_at ≤ y.created_at) := by
      rw [created_eq_of_sanitize_eq hab, created_eq_of_sanitize_eq hxy]
    simp only [insertByCreated]
    by_cases hc : a.created_at ≤ x.created_at
    · rw [if_pos hc, if_pos (hkey ▸ hc)]
      exact .cons hab (.cons hxy hrest)
    · rw [if_neg hc, if_neg (hkey ▸ hc)]
      exact .cons hxy ih

/-- Sorting by creation stamp respects pointwise sanitize-equality. -/
theorem forall2_sortByCreated {l m : List Account}
    (h : List.Forall₂ (fun x y => sanitizeAccount x = sanitizeAccount y) l m) :
    List.Forall₂ (fun x y => sanitizeAccount x = sanitizeAccount y)
      (sortByCreated l) (sortByCreated m) := by
  induction h with
  | nil => exact .nil
  | cons hxy hrest ih =>
    simp only [sortByCreated, List.foldr_cons]
    exact forall2_insertByCreated hxy ih

/-- Pointwise sanitize-equal lists have equal sanitized projections. -/
theorem map_sanitize_eq {l m : List Account}
    (h : List.Forall₂ (fun x y => sanitizeAccount x = sanitizeAccount y) l m) :
    l.map sanitizeAccount = m.map sanitizeAccount := by
  induction h with
  | nil => rfl
  | cons hxy _ ih => simp [hxy, ih]

/-- C10: the accounts listing exposes only the sanitized fields (id,
email, name, quota snapshot, timestamps): rewriting every stored account's
secret fields (`refresh_token`, `access_token`, `token_expiry`) in any way
that keeps the sanitized projection produces an identical response, so two
stores differing only in those fields are indistinguishable to the
caller. -/
theorem C10_accounts_listing_hides_secrets (store : List Account) (f : Account → Account)
    (h : ∀ a, sanitizeAccount (f a) = sanitizeAccount a) :
    accountsGET (store.map f) = accountsGET store := by
  have hF : List.Forall₂ (fun x y => sanitizeAccount x = sanitizeAccount y)
      (store.map f) store := by
    induction store with
    | nil => exact .nil
    | cons a rest ih => exact .cons (h a) ih
  exact map_sanitize_eq (forall2_sortByCreated hF)

/-- Rewrite an account's secret fields only: replace the encrypted blob
and wipe the cached token. -/
def scrubSecrets (a : Account) : Account :=
  { a with
      refresh_token := (encryptRefreshToken "other-secret" "other-pass" 9).1
      access_token := none
      token_expiry := none }

/-- Witness for C10 at concrete inputs: scrubbing the secret fields of a
two-account store leaves the listing response unchanged. -/
theorem C10_accounts_listing_witness :
    accountsGET ([c7AccountA, c7AccountB].map scrubSecrets) =
      accountsGET [c7AccountA, c7AccountB] := by
  exact C10_accounts_listing_hides_secrets [c7AccountA, c7AccountB] scrubSecrets
    (fun a => rfl)

end LDH
